import Mathlib

/-!
Verification of the Rita-go-streamer bridge (src/stream.go, src/stream-file.go)
against its natural-language specification.

The Go sources are shallowly embedded: byte streams are `List Nat`, wall-clock
instants are nanosecond counts (`Nat`), the per-`main` mutable variables are a
`GState` record, and the two `OnWriteComplete` closures are pure state
transformers that also return the log events they would print.
-/

/-! ## Video header handshake (src/stream.go lines 129-139)

`binary.Read(rawVideoPipe, binary.LittleEndian, &frameWidth)` reads exactly
four bytes and decodes them as a little-endian unsigned 32-bit integer; it is
called twice (width then height), and any failure is `log.Fatal` before the
room connection or any `PublishTrack` call. -/

/-- Little-endian decode of four bytes, as Go's binary.LittleEndian.Uint32. -/
def u32le (b0 b1 b2 b3 : Nat) : Nat :=
  b0 + 256 * b1 + 65536 * b2 + 16777216 * b3

/-- One `binary.Read` of a uint32: consume exactly four bytes from the stream,
or fail when the stream ends first. -/
def readU32LE : List Nat → Option (Nat × List Nat)
  | b0 :: b1 :: b2 :: b3 :: rest => some (u32le b0 b1 b2 b3, rest)
  | _ => none

/-- The two consecutive `binary.Read` calls of src/stream.go lines 131 and 135:
width then height, returning the untouched remainder of the stream. -/
def readHeader (s : List Nat) : Option (Nat × Nat × List Nat) :=
  (readU32LE s).bind fun wr =>
    (readU32LE wr.2).bind fun hr =>
      some (wr.1, hr.1, hr.2)

/-- Externally visible actions of `main`, in program order. -/
inductive Ev where
  | fatalHeader
  | connect
  | publishAudio
  | publishVideo (w h : Nat)
  | finalVideoStats (frames avg mn mx : Nat)
  | finalAudioStats (frames : Nat)
  | killVideoEncoder
  | killAudioEncoder
  | disconnect
  deriving DecidableEq

/-- Bootstrap order of src/stream.go: the 8-byte header is read (lines
129-139) before `ConnectToRoom` (line 148) and before the audio track (line
314) and video track (line 321) are published; a header failure is
`log.Fatal`, so nothing after it runs. -/
def mainStartup (s : List Nat) : List Ev :=
  match readHeader s with
  | none => [Ev.fatalHeader]
  | some r => [Ev.connect, Ev.publishAudio, Ev.publishVideo r.1 r.2.1]

/-! ## Presence-based lifecycle loop (src/stream.go lines 329-343)

The loop sleeps one second, samples `room.GetRemoteParticipants()`, increments
`noParticipantsCount` on an empty sample (breaking once it reaches 3) and
resets it to 0 on a non-empty sample.  A snapshot is modelled by the Boolean
"the peer set was empty"; the function returns the 0-based index of the sample
at which the loop breaks, or `none` when the given finite sample sequence
never triggers shutdown. -/

/-- The polling loop from src/stream.go lines 330-343, started with counter
`c`; returns the 0-based index of the shutdown sample. -/
def monitorFrom : Nat → List Bool → Option Nat
  | _, [] => none
  | c, true :: rest =>
    if c + 1 ≥ 3 then some 0
    else (monitorFrom (c + 1) rest).map (· + 1)
  | _, false :: rest => (monitorFrom 0 rest).map (· + 1)

/-- The 1-based sample number at which the live-pipe variant signals
shutdown, starting from `noParticipantsCount = 0`. -/
def shutdownSample (snaps : List Bool) : Option Nat :=
  (monitorFrom 0 snaps).map (· + 1)

/-- Number of consecutive empty snapshots at the end of `l`, counted from the
last non-empty snapshot or from an initial carry of `c`. -/
def consecFrom (c : Nat) (l : List Bool) : Nat :=
  l.foldl (fun k e => if e then k + 1 else 0) c

/-- Consecutive empty snapshots at the end of `l`, counted from the last
non-empty snapshot or from the start. -/
def consecEmpties (l : List Bool) : Nat :=
  consecFrom 0 l

theorem consecFrom_cons_true (c : Nat) (l : List Bool) :
    consecFrom c (true :: l) = consecFrom (c + 1) l := rfl

theorem consecFrom_cons_false (c : Nat) (l : List Bool) :
    consecFrom c (false :: l) = consecFrom 0 l := rfl

theorem consecFrom_nil (c : Nat) : consecFrom c [] = c := rfl

/-! ## Diagnostic start-code scanner (src/stream.go lines 30-49,
src/stream-file.go lines 27-46)

`H264Reader.Read` calls the underlying reader, then scans the returned buffer
`p[0:n]` with `for i := 0; i < n-4; i++`, testing for the 4-byte pattern
`00 00 00 01` or the 3-byte pattern `00 00 01` at offset `i`.  On a match it
prints a "Found start code" line only when `start < i`, then sets
`start = i`.  The bytes of `p` are never written. -/

/-- The Go condition `p[i]==0 && p[i+1]==0 && p[i+2]==0 && p[i+3]==1`. -/
def startCode4 (p : List Nat) (i : Nat) : Bool :=
  p.getD i 1 == 0 && p.getD (i + 1) 1 == 0 && p.getD (i + 2) 1 == 0 &&
    p.getD (i + 3) 0 == 1

/-- The Go condition `p[i]==0 && p[i+1]==0 && p[i+2]==1`. -/
def startCode3 (p : List Nat) (i : Nat) : Bool :=
  p.getD i 1 == 0 && p.getD (i + 1) 1 == 0 && p.getD (i + 2) 0 == 1

/-- The disjunction tested at each loop offset. -/
def codeMatch (p : List Nat) (i : Nat) : Bool :=
  startCode4 p i || startCode3 p i

/-- Ground truth: a start-code pattern begins at offset `i` and lies entirely
within the buffer. -/
def occursAt (p : List Nat) (i : Nat) : Bool :=
  (decide (i + 4 ≤ p.length) && startCode4 p i) ||
    (decide (i + 3 ≤ p.length) && startCode3 p i)

/-- The scan loop body, with `fuel` remaining iterations, current `start`
boundary and loop index `i`; returns the printed (offset, previous chunk
size) pairs in order. -/
def scanFrom (p : List Nat) : Nat → Nat → Nat → List (Nat × Nat)
  | 0, _, _ => []
  | fuel + 1, start, i =>
    if codeMatch p i then
      if start < i then (i, i - start) :: scanFrom p fuel i (i + 1)
      else scanFrom p fuel i (i + 1)
    else scanFrom p fuel start (i + 1)

/-- The whole scan of one read buffer: `start := 0`, loop while `i < n - 4`
(so `n - 4` iterations in Nat arithmetic, matching Go since the loop body
never runs when `n < 5`). -/
def h264scan (p : List Nat) : List (Nat × Nat) :=
  scanFrom p (p.length - 4) 0 0

/-- Offsets at which a "Found start code" line is printed for buffer `p`. -/
def reportedOffsets (p : List Nat) : List Nat :=
  (h264scan p).map Prod.fst

/-! ## H264Reader.Read as a state machine (C7)

The underlying `io.ReadCloser` is modelled as a script of read results
(bytes filled into `p`, error value); the wrapper's own fields are the
script, the `name`, and the unused `bytes.Buffer` field. -/

structure H264ReaderM where
  reader : List (List Nat × Option String)
  name : String
  buffer : List Nat
  deriving DecidableEq

structure ReadResult where
  after : H264ReaderM
  bytes : List Nat
  err : Option String
  found : List (Nat × Nat)
  deriving DecidableEq

/-- `H264Reader.Read`: forward the wrapped reader's result unchanged; when
`n > 0`, scan the buffer for start codes (a pure function of the buffer)
purely for logging.  No field other than the consumed script changes and the
buffer bytes are returned exactly as the underlying reader produced them. -/
def H264Read (h : H264ReaderM) : ReadResult :=
  match h.reader with
  | [] => ⟨{ h with reader := [] }, [], some "EOF", []⟩
  | r :: rest =>
    ⟨{ h with reader := rest }, r.1, r.2,
      if 0 < r.1.length then h264scan r.1 else []⟩

/-! ## Per-frame completion callbacks (src/stream.go lines 241-311)

All mutable variables of `main` that the two `OnWriteComplete` closures can
touch, with times in nanoseconds.  `videoBytesRead` and `audioBytesRead` are
declared but never incremented in the source. -/

structure GState where
  frameCount : Nat
  lastFrameTime : Nat
  totalEncodeTime : Nat
  maxEncodeTime : Nat
  minEncodeTime : Nat
  startTime : Nat
  firstVideoFrame : Bool
  firstAudioFrame : Bool
  videoBytesRead : Nat
  audioBytesRead : Nat
  audioFrameCount : Nat
  deriving DecidableEq

/-- Go's `time.Hour` in nanoseconds, the initial `minEncodeTime`. -/
def hourNs : Nat := 3600000000000

/-- The zero values of the variables at src/stream.go lines 242-251 and 291,
with `minEncodeTime = time.Hour`. -/
def initState : GState :=
  ⟨0, 0, 0, 0, hourNs, 0, false, false, 0, 0, 0⟩

/-- Log lines the callbacks print, with their numeric payloads. -/
inductive LogEv where
  | videoFirst (t dt bytes : Nat)
  | videoPeriodic (frame enc avg mn mx bytes : Nat)
  | audioFirst (t delay bytes : Nat)
  | audioPeriodic (frames sinceStart bytes : Nat)
  deriving DecidableEq

/-- The video `OnWriteComplete` closure (src/stream.go lines 256-284): on the
first invocation record `startTime` and print the first-frame line; otherwise
accumulate the interval since `lastFrameTime` into total/count/min/max and
print the periodic line when `frameCount` is a multiple of 100.
`lastFrameTime = now` is set on every invocation. -/
def videoCb (s : GState) (now : Nat) : GState × List LogEv :=
  if s.firstVideoFrame = false then
    ({ s with startTime := now, firstVideoFrame := true, lastFrameTime := now },
      [LogEv.videoFirst now (now - now) s.videoBytesRead])
  else
    let enc := now - s.lastFrameTime
    let total := s.totalEncodeTime + enc
    let fc := s.frameCount + 1
    let mx := if s.maxEncodeTime < enc then enc else s.maxEncodeTime
    let mn := if enc < s.minEncodeTime then enc else s.minEncodeTime
    ({ s with totalEncodeTime := total, frameCount := fc,
              maxEncodeTime := mx, minEncodeTime := mn, lastFrameTime := now },
      if fc % 100 = 0 then
        [LogEv.videoPeriodic fc enc (total / fc) mn mx s.videoBytesRead]
      else [])

/-- The audio `OnWriteComplete` closure (src/stream.go lines 294-307): set the
first-frame flag and print the delay from the (video-recorded) `startTime`;
on later invocations increment `audioFrameCount` and print the periodic line
every 500 frames. -/
def audioCb (s : GState) (now : Nat) : GState × List LogEv :=
  if s.firstAudioFrame = false then
    ({ s with firstAudioFrame := true },
      [LogEv.audioFirst now (now - s.startTime) s.audioBytesRead])
  else
    let ac := s.audioFrameCount + 1
    ({ s with audioFrameCount := ac },
      if ac % 500 = 0 then
        [LogEv.audioPeriodic ac (now - s.startTime) s.audioBytesRead]
      else [])

/-- Run the video callback over a sequence of invocation timestamps. -/
def runVideo (s : GState) (ts : List Nat) : GState :=
  ts.foldl (fun s t => (videoCb s t).1) s

/-- Run the audio callback over a sequence of invocation timestamps. -/
def runAudio (s : GState) (ts : List Nat) : GState :=
  ts.foldl (fun s t => (audioCb s t).1) s

/-- Per-invocation log output of successive video callback invocations. -/
def runVideoSteps : GState → List Nat → List (List LogEv)
  | _, [] => []
  | s, t :: ts => (videoCb s t).2 :: runVideoSteps (videoCb s t).1 ts

/-- Per-invocation log output of successive audio callback invocations. -/
def runAudioSteps : GState → List Nat → List (List LogEv)
  | _, [] => []
  | s, t :: ts => (audioCb s t).2 :: runAudioSteps (audioCb s t).1 ts

/-- One interleaved callback event: `true` is a video hand-off, `false` an
audio hand-off, with its timestamp. -/
def cbStep (s : GState) (ev : Bool × Nat) : GState :=
  if ev.1 then (videoCb s ev.2).1 else (audioCb s ev.2).1

/-- Run an arbitrary interleaving of video and audio callback invocations. -/
def runBoth (s : GState) (evs : List (Bool × Nat)) : GState :=
  evs.foldl cbStep s

/-- Number of video invocations in an interleaving. -/
def countVideo (evs : List (Bool × Nat)) : Nat :=
  (evs.filter fun ev => ev.1).length

/-- Consecutive differences of a timestamp list against a previous instant:
the inter-invocation intervals as the callback computes them. -/
def diffs : Nat → List Nat → List Nat
  | _, [] => []
  | prev, t :: ts => (t - prev) :: diffs t ts

/-! ## Teardown (src/stream.go lines 345-357, src/stream-file.go 251-263)

Both variants end identically: the final video statistics line guarded by
`frameCount > 0`, the unconditional final audio line, `Kill` on both ffmpeg
processes, then `room.Disconnect()`. -/

/-- The common teardown tail of both `main` functions, in program order. -/
def teardown (s : GState) : List Ev :=
  (if 0 < s.frameCount then
    [Ev.finalVideoStats s.frameCount (s.totalEncodeTime / s.frameCount)
      s.minEncodeTime s.maxEncodeTime]
  else [])
  ++ [Ev.finalAudioStats s.audioFrameCount,
      Ev.killVideoEncoder, Ev.killAudioEncoder, Ev.disconnect]

/-- Live-pipe variant after publishing: the monitor loop runs until the
hysteresis fires (never exiting on a sequence that does not trigger it), then
the teardown tail runs. -/
def liveMainRun (snaps : List Bool) (s : GState) : Option (List Ev) :=
  (shutdownSample snaps).map fun _ => teardown s

/-- File variant after publishing: sleep a fixed 60 s, then the same teardown
tail. -/
def fileMainRun (s : GState) : List Ev :=
  teardown s

/-- Recognizer for the final video statistics line. -/
def isFinalVideo : Ev → Bool
  | Ev.finalVideoStats _ _ _ _ => true
  | _ => false

/-- Recognizer for the final audio statistics line. -/
def isFinalAudio : Ev → Bool
  | Ev.finalAudioStats _ => true
  | _ => false

/-- Recognizer for the periodic video diagnostic. -/
def isVideoPeriodic : LogEv → Bool
  | LogEv.videoPeriodic _ _ _ _ _ _ => true
  | _ => false

/-- Recognizer for the periodic audio diagnostic. -/
def isAudioPeriodic : LogEv → Bool
  | LogEv.audioPeriodic _ _ _ => true
  | _ => false

/-! ## Frame pacing (C4) -/

/-- Modelled from the spec: the Frame-Paced Publisher's pacing loop is
implemented inside the transport library (`lksdk.NewLocalReaderTrack` with
`ReaderTrackWithFrameDuration`), whose source is not part of this repository;
only its configuration appears in src.  The spec's contract: "each successive
hand-off to the sink occurs no sooner than nominalDuration after the previous
one".  `Paced d ts` states that the hand-off instants `ts` obey that
contract for nominal duration `d`. -/
def Paced (d : Nat) (ts : List Nat) : Prop :=
  List.Chain' (fun a b => a + d ≤ b) ts

/-- Nominal video frame duration configured at src/stream.go line 255, in
milliseconds (40 ms, 25 fps). -/
def videoFrameDurationMs : Nat := 40

/-- Nominal audio frame duration configured at src/stream.go line 293, in
milliseconds (20 ms). -/
def audioFrameDurationMs : Nat := 20

/-! ## Helper lemmas: lifecycle characterization (C1) -/

theorem monitorFrom_some_iff :
    ∀ (l : List Bool) (c k : Nat), c < 3 →
    (monitorFrom c l = some k ↔
      (consecFrom c (l.take (k + 1)) = 3 ∧
        ∀ j, j ≤ k → consecFrom c (l.take j) < 3)) := by
  intro l
  induction l with
  | nil =>
    intro c k hc
    constructor
    · intro h; simp [monitorFrom] at h
    · rintro ⟨h1, _⟩
      rw [List.take_nil, consecFrom_nil] at h1
      omega
  | cons e rest ih =>
    intro c k hc
    cases e with
    | true =>
      rcases Nat.lt_or_ge (c + 1) 3 with h3 | h3
      · have hmap : monitorFrom c (true :: rest) =
            (monitorFrom (c + 1) rest).map (· + 1) := by
          simp only [monitorFrom]
          rw [if_neg (by omega)]
        rw [hmap]
        cases k with
        | zero =>
          constructor
          · intro h
            rcases Option.map_eq_some'.mp h with ⟨a, _, hae⟩
            exact (Nat.succ_ne_zero a hae).elim
          · rintro ⟨h1, _⟩
            rw [List.take_succ_cons, List.take_zero, consecFrom_cons_true,
              consecFrom_nil] at h1
            omega
        | succ k' =>
          have hiff := ih (c + 1) k' (by omega)
          constructor
          · intro h
            rcases Option.map_eq_some'.mp h with ⟨a, ha, hae⟩
            have hae' : a + 1 = k' + 1 := hae
            have ha' : a = k' := by omega
            subst ha'
            obtain ⟨h1, h2⟩ := hiff.mp ha
            refine ⟨?_, ?_⟩
            · rw [List.take_succ_cons, consecFrom_cons_true]; exact h1
            · intro j hj
              cases j with
              | zero => rw [List.take_zero, consecFrom_nil]; omega
              | succ j' =>
                rw [List.take_succ_cons, consecFrom_cons_true]
                exact h2 j' (by omega)
          · rintro ⟨h1, h2⟩
            refine Option.map_eq_some'.mpr ⟨k', ?_, rfl⟩
            refine hiff.mpr ⟨?_, ?_⟩
            · rw [List.take_succ_cons, consecFrom_cons_true] at h1; exact h1
            · intro j hj
              have hh := h2 (j + 1) (by omega)
              rwa [List.take_succ_cons, consecFrom_cons_true] at hh
      · have hstop : monitorFrom c (true :: rest) = some 0 := by
          simp only [monitorFrom]
          rw [if_pos h3]
        rw [hstop]
        constructor
        · intro h
          have hk : k = 0 := (Option.some.inj h).symm
          subst hk
          refine ⟨?_, ?_⟩
          · rw [List.take_succ_cons, List.take_zero, consecFrom_cons_true,
              consecFrom_nil]
            omega
          · intro j hj
            have hj0 : j = 0 := by omega
            subst hj0
            rw [List.take_zero, consecFrom_nil]
            omega
        · rintro ⟨h1, h2⟩
          have hk : k = 0 := by
            by_contra hk0
            have hh := h2 1 (by omega)
            rw [List.take_succ_cons, List.take_zero, consecFrom_cons_true,
              consecFrom_nil] at hh
            omega
          subst hk; rfl
    | false =>
      have hmap : monitorFrom c (false :: rest) =
          (monitorFrom 0 rest).map (· + 1) := by
        simp [monitorFrom]
      rw [hmap]
      cases k with
      | zero =>
        constructor
        · intro h
          rcases Option.map_eq_some'.mp h with ⟨a, _, hae⟩
          exact (Nat.succ_ne_zero a hae).elim
        · rintro ⟨h1, _⟩
          rw [List.take_succ_cons, List.take_zero, consecFrom_cons_false,
            consecFrom_nil] at h1
          omega
      | succ k' =>
        have hiff := ih 0 k' (by omega)
        constructor
        · intro h
          rcases Option.map_eq_some'.mp h with ⟨a, ha, hae⟩
          have hae' : a + 1 = k' + 1 := hae
          have ha' : a = k' := by omega
          subst ha'
          obtain ⟨h1, h2⟩ := hiff.mp ha
          refine ⟨?_, ?_⟩
          · rw [List.take_succ_cons, consecFrom_cons_false]; exact h1
          · intro j hj
            cases j with
            | zero => rw [List.take_zero, consecFrom_nil]; omega
            | succ j' =>
              rw [List.take_succ_cons, consecFrom_cons_false]
              exact h2 j' (by omega)
        · rintro ⟨h1, h2⟩
          refine Option.map_eq_some'.mpr ⟨k', ?_, rfl⟩
          refine hiff.mpr ⟨?_, ?_⟩
          · rw [List.take_succ_cons, consecFrom_cons_false] at h1; exact h1
          · intro j hj
            have hh := h2 (j + 1) (by omega)
            rwa [List.take_succ_cons, consecFrom_cons_false] at hh

/-- C1: starting from `count = 0`, the live-pipe monitor loop signals
shutdown exactly at the first sample at which the number of consecutive empty
snapshots (since the last non-empty snapshot or since start) reaches 3; every
non-empty snapshot resets the counter; in particular the snapshot sequence
[empty, empty, non-empty, empty, empty, empty] shuts down at sample 6 and
[non-empty, empty, empty, empty] at sample 4.  (`true` = empty snapshot.) -/
theorem c1_presence_hysteresis :
    (∀ (snaps : List Bool) (n : Nat),
      shutdownSample snaps = some n ↔
        (1 ≤ n ∧ consecEmpties (snaps.take n) = 3 ∧
          ∀ m, m < n → consecEmpties (snaps.take m) < 3)) ∧
    shutdownSample [true, true, false, true, true, true] = some 6 ∧
    shutdownSample [false, true, true, true] = some 4 := by
  refine ⟨?_, by decide, by decide⟩
  intro snaps n
  unfold shutdownSample consecEmpties
  constructor
  · intro h
    rcases Option.map_eq_some'.mp h with ⟨a, ha, hae⟩
    have hae' : a + 1 = n := hae
    obtain ⟨h1, h2⟩ := (monitorFrom_some_iff snaps 0 a (by omega)).mp ha
    refine ⟨by omega, ?_, ?_⟩
    · rw [show n = a + 1 by omega]; exact h1
    · intro m hm
      exact h2 m (by omega)
  · rintro ⟨hn, h1, h2⟩
    refine Option.map_eq_some'.mpr ⟨n - 1, ?_, show n - 1 + 1 = n by omega⟩
    refine (monitorFrom_some_iff snaps 0 (n - 1) (by omega)).mpr ⟨?_, ?_⟩
    · rw [show n - 1 + 1 = n by omega]; exact h1
    · intro j hj
      exact h2 j (by omega)

/-- C2: for every video raw channel whose first 8 bytes are available, the
bridge decodes bytes 0-3 as the little-endian u32 width and bytes 4-7 as the
little-endian u32 height, returning the remaining stream untouched before any
pixel byte is consumed; a channel shorter than 8 bytes makes the header read
fail, which aborts startup fatally before any track is published; on success
the connect and publish actions follow with the decoded dimensions. -/
theorem c2_video_header :
    (∀ (b0 b1 b2 b3 b4 b5 b6 b7 : Nat) (rest : List Nat),
      readHeader (b0 :: b1 :: b2 :: b3 :: b4 :: b5 :: b6 :: b7 :: rest) =
        some (u32le b0 b1 b2 b3, u32le b4 b5 b6 b7, rest)) ∧
    (∀ s : List Nat, s.length < 8 →
      readHeader s = none ∧ mainStartup s = [Ev.fatalHeader]) ∧
    (∀ (s : List Nat) (w h : Nat) (r : List Nat),
      readHeader s = some (w, h, r) →
      mainStartup s = [Ev.connect, Ev.publishAudio, Ev.publishVideo w h]) := by
  refine ⟨?_, ?_, ?_⟩
  · intro b0 b1 b2 b3 b4 b5 b6 b7 rest
    rfl
  · intro s hs
    have hnone : readHeader s = none := by
      rcases s with _ | ⟨a0, _ | ⟨a1, _ | ⟨a2, _ | ⟨a3, _ | ⟨a4, _ | ⟨a5,
        _ | ⟨a6, _ | ⟨a7, t⟩⟩⟩⟩⟩⟩⟩⟩
      · rfl
      · rfl
      · rfl
      · rfl
      · rfl
      · rfl
      · rfl
      · rfl
      · exfalso
        have hl : (a0 :: a1 :: a2 :: a3 :: a4 :: a5 :: a6 :: a7 :: t).length =
            t.length + 8 := by simp
        omega
    exact ⟨hnone, by simp [mainStartup, hnone]⟩
  · intro s w h r hr
    simp [mainStartup, hr]

theorem c2_video_header_witness :
    readHeader ([] : List Nat) = none ∧ mainStartup [] = [Ev.fatalHeader] ∧
    mainStartup [1, 0, 0, 0, 2, 0, 0, 0] =
      [Ev.connect, Ev.publishAudio, Ev.publishVideo 1 2] :=
  ⟨(c2_video_header.2.1 [] (by decide)).1,
   (c2_video_header.2.1 [] (by decide)).2,
   c2_video_header.2.2 [1, 0, 0, 0, 2, 0, 0, 0] 1 2 [] (by rfl)⟩

/-! ## Helper lemmas: start-code scanner (C6) -/

theorem scanFrom_map_fst (p : List Nat) :
    ∀ (fuel start i : Nat), start ≤ i →
    (scanFrom p fuel start i).map Prod.fst =
      ((List.range' i fuel).filter fun j => codeMatch p j).filter
        fun j => decide (start < j) := by
  intro fuel
  induction fuel with
  | zero => intro start i _; rfl
  | succ f ihf =>
    intro start i hsi
    rw [List.range'_succ]
    by_cases hm : codeMatch p i
    · have hfc : ((i :: List.range' (i + 1) f).filter fun j => codeMatch p j) =
          i :: ((List.range' (i + 1) f).filter fun j => codeMatch p j) :=
        List.filter_cons_of_pos hm
      rw [hfc]
      by_cases hlt : start < i
      · simp only [scanFrom, if_pos hm, if_pos hlt, List.map_cons]
        rw [ihf i (i + 1) (by omega)]
        rw [List.filter_cons_of_pos (by simpa using hlt)]
        congr 1
        have hgt : ∀ l : List Nat, (∀ j ∈ l, i < j) →
            (l.filter fun j => decide (i < j)) =
              (l.filter fun j => decide (start < j)) := by
          intro l hl
          rw [List.filter_eq_self.mpr fun a ha => by simpa using hl a ha,
            List.filter_eq_self.mpr fun a ha => by
              have := hl a ha; simp; omega]
        apply hgt
        intro j hj
        have := List.mem_range'_1.mp (List.mem_of_mem_filter hj)
        omega
      · have hse : start = i := by omega
        subst hse
        simp only [scanFrom, if_pos hm, if_neg hlt]
        rw [ihf start (start + 1) (by omega)]
        rw [List.filter_cons_of_neg (by simp)]
    · simp only [scanFrom, if_neg hm]
      rw [ihf start (i + 1) (by omega)]
      rw [List.filter_cons_of_neg (by simpa using hm)]

theorem codeMatch_eq_occursAt (p : List Nat) (j : Nat) (h : j < p.length - 4) :
    codeMatch p j = occursAt p j := by
  unfold codeMatch occursAt
  have h4 : j + 4 ≤ p.length := by omega
  have h3 : j + 3 ≤ p.length := by omega
  rw [decide_eq_true h4, decide_eq_true h3]
  simp

theorem reportedOffsets_eq (p : List Nat) :
    reportedOffsets p =
      ((List.range (p.length - 4)).filter fun j => codeMatch p j).filter
        fun j => decide (0 < j) := by
  unfold reportedOffsets h264scan
  rw [scanFrom_map_fst p (p.length - 4) 0 0 (Nat.le_refl 0),
    List.range_eq_range']

/-- C6 (amended): the scan of one read buffer of n bytes visits only the
offsets i with i < n - 4, so it detects a start-code occurrence exactly when
the pattern begins at such an offset; every detected occurrence at a positive
offset is reported at its offset, while a detected occurrence at offset 0 is
never reported, and occurrences beginning in the last four bytes of the
buffer are missed even when they lie entirely within it. -/
theorem c6_scanner_reports :
    ∀ p : List Nat,
      reportedOffsets p =
        ((List.range (p.length - 4)).filter fun j => occursAt p j).filter
          fun j => decide (0 < j) := by
  intro p
  rw [reportedOffsets_eq]
  congr 1
  apply List.filter_congr
  intro j hj
  exact codeMatch_eq_occursAt p j (List.mem_range.mp hj)

/-- C6 counterexample to the claim as stated: the buffer 00 00 00 01 contains
the 4-byte start-code pattern entirely within it at offset 0, yet the scan
loop (`for i := 0; i < n-4; i++`) performs no iteration, so the occurrence is
neither detected nor reported. -/
theorem c6_counterexample :
    occursAt [0, 0, 0, 1] 0 = true ∧
    h264scan [0, 0, 0, 1] = [] ∧
    reportedOffsets [0, 0, 0, 1] = [] := by
  decide

/-- C7: H264Reader.Read hands back to its caller exactly the byte chunk and
error produced by the wrapped reader (the scan never modifies the buffer),
leaves the wrapper's own `name` and `buffer` fields untouched, and the
diagnostic scan result is the pure function `h264scan` of the current chunk
alone, so the scan outcome carries no state between calls: two reads whose
underlying chunks coincide yield identical scan output whatever the rest of
either reader's state. -/
theorem c7_read_passthrough :
    (∀ (h : H264ReaderM) (c : List Nat) (e : Option String)
        (rest : List (List Nat × Option String)),
      h.reader = (c, e) :: rest →
        (H264Read h).bytes = c ∧
        (H264Read h).err = e ∧
        (H264Read h).after.name = h.name ∧
        (H264Read h).after.buffer = h.buffer ∧
        (H264Read h).after.reader = rest ∧
        (H264Read h).found = if 0 < c.length then h264scan c else []) ∧
    (∀ (h1 h2 : H264ReaderM) (c : List Nat) (e1 e2 : Option String)
        (r1 r2 : List (List Nat × Option String)),
      h1.reader = (c, e1) :: r1 → h2.reader = (c, e2) :: r2 →
        (H264Read h1).found = (H264Read h2).found) := by
  constructor
  · intro h c e rest hr
    simp [H264Read, hr]
  · intro h1 h2 c e1 e2 r1 r2 hr1 hr2
    simp [H264Read, hr1, hr2]

theorem c7_read_passthrough_witness :
    (H264Read ⟨[([0, 1], none)], "Video", []⟩).bytes = [0, 1] ∧
    (H264Read ⟨[([0, 1], none)], "Video", []⟩).err = none ∧
    (H264Read ⟨[([0, 1], none)], "Video", []⟩).found =
      (H264Read ⟨[([0, 1], some "err")], "Audio", [7]⟩).found :=
  ⟨((c7_read_passthrough.1 ⟨[([0, 1], none)], "Video", []⟩ [0, 1] none []) rfl).1,
   ((c7_read_passthrough.1 ⟨[([0, 1], none)], "Video", []⟩ [0, 1] none []) rfl).2.1,
   c7_read_passthrough.2 ⟨[([0, 1], none)], "Video", []⟩
     ⟨[([0, 1], some "err")], "Audio", [7]⟩ [0, 1] none (some "err") [] [] rfl rfl⟩

/-! ## Helper lemmas: callback state evolution (C3, C8, C9, C10) -/

/-- Running minimum, as the source's `if encodeTime < minEncodeTime` update. -/
def recMin (a : Nat) (l : List Nat) : Nat :=
  l.foldl (fun m d => if d < m then d else m) a

/-- Running maximum, as the source's `if encodeTime > maxEncodeTime` update. -/
def recMax (a : Nat) (l : List Nat) : Nat :=
  l.foldl (fun m d => if m < d then d else m) a

theorem recMin_nil (a : Nat) : recMin a [] = a := rfl

theorem recMin_cons (a d : Nat) (l : List Nat) :
    recMin a (d :: l) = recMin (if d < a then d else a) l := rfl

theorem recMax_nil (a : Nat) : recMax a [] = a := rfl

theorem recMax_cons (a d : Nat) (l : List Nat) :
    recMax a (d :: l) = recMax (if a < d then d else a) l := rfl

theorem recMin_le_init : ∀ (l : List Nat) (a : Nat), recMin a l ≤ a := by
  intro l
  induction l with
  | nil => intro a; exact Nat.le_refl a
  | cons d l ih =>
    intro a
    rw [recMin_cons]
    refine Nat.le_trans (ih _) ?_
    split <;> omega

theorem recMin_le_mem :
    ∀ (l : List Nat) (a x : Nat), x ∈ l → recMin a l ≤ x := by
  intro l
  induction l with
  | nil => intro a x hx; exact absurd hx (List.not_mem_nil x)
  | cons d l ih =>
    intro a x hx
    rw [recMin_cons]
    rcases List.mem_cons.mp hx with hx | hx
    · subst hx
      refine Nat.le_trans (recMin_le_init _ _) ?_
      split <;> omega
    · exact ih _ x hx

theorem recMax_init_le : ∀ (l : List Nat) (a : Nat), a ≤ recMax a l := by
  intro l
  induction l with
  | nil => intro a; exact Nat.le_refl a
  | cons d l ih =>
    intro a
    rw [recMax_cons]
    refine Nat.le_trans ?_ (ih _)
    split <;> omega

theorem recMax_mem_le :
    ∀ (l : List Nat) (a x : Nat), x ∈ l → x ≤ recMax a l := by
  intro l
  induction l with
  | nil => intro a x hx; exact absurd hx (List.not_mem_nil x)
  | cons d l ih =>
    intro a x hx
    rw [recMax_cons]
    rcases List.mem_cons.mp hx with hx | hx
    · subst hx
      refine Nat.le_trans ?_ (recMax_init_le _ _)
      split <;> omega
    · exact ih _ x hx

theorem length_mul_le_sum :
    ∀ (l : List Nat) (m : Nat), (∀ x ∈ l, m ≤ x) → l.length * m ≤ l.sum := by
  intro l
  induction l with
  | nil => intro m _; simp
  | cons d l ih =>
    intro m h
    have hd := h d (List.mem_cons_self d l)
    have hl := ih m fun x hx => h x (List.mem_cons_of_mem d hx)
    simp only [List.length_cons, List.sum_cons, Nat.succ_mul]
    omega

theorem sum_le_length_mul :
    ∀ (l : List Nat) (m : Nat), (∀ x ∈ l, x ≤ m) → l.sum ≤ l.length * m := by
  intro l
  induction l with
  | nil => intro m _; simp
  | cons d l ih =>
    intro m h
    have hd := h d (List.mem_cons_self d l)
    have hl := ih m fun x hx => h x (List.mem_cons_of_mem d hx)
    simp only [List.length_cons, List.sum_cons, Nat.succ_mul]
    omega

theorem diffs_nil (prev : Nat) : diffs prev [] = [] := rfl

theorem diffs_cons (prev t : Nat) (ts : List Nat) :
    diffs prev (t :: ts) = (t - prev) :: diffs t ts := rfl

theorem diffs_length : ∀ (ts : List Nat) (prev : Nat),
    (diffs prev ts).length = ts.length := by
  intro ts
  induction ts with
  | nil => intro prev; rfl
  | cons t ts ih => intro prev; simp [diffs_cons, ih]

theorem runVideo_nil (s : GState) : runVideo s [] = s := rfl

theorem runVideo_cons (s : GState) (t : Nat) (ts : List Nat) :
    runVideo s (t :: ts) = runVideo (videoCb s t).1 ts := rfl

theorem runAudio_nil (s : GState) : runAudio s [] = s := rfl

theorem runAudio_cons (s : GState) (t : Nat) (ts : List Nat) :
    runAudio s (t :: ts) = runAudio (audioCb s t).1 ts := rfl

theorem runVideo_inv :
    ∀ (ts : List Nat) (s : GState), s.firstVideoFrame = true →
      (runVideo s ts).firstVideoFrame = true ∧
      (runVideo s ts).frameCount = s.frameCount + ts.length ∧
      (runVideo s ts).lastFrameTime = ts.getLastD s.lastFrameTime ∧
      (runVideo s ts).totalEncodeTime =
        s.totalEncodeTime + (diffs s.lastFrameTime ts).sum ∧
      (runVideo s ts).minEncodeTime =
        recMin s.minEncodeTime (diffs s.lastFrameTime ts) ∧
      (runVideo s ts).maxEncodeTime =
        recMax s.maxEncodeTime (diffs s.lastFrameTime ts) ∧
      (runVideo s ts).startTime = s.startTime ∧
      (runVideo s ts).firstAudioFrame = s.firstAudioFrame ∧
      (runVideo s ts).audioFrameCount = s.audioFrameCount := by
  intro ts
  induction ts with
  | nil =>
    intro s hs
    simp [runVideo_nil, diffs_nil, recMin_nil, recMax_nil, hs]
  | cons t ts ih =>
    intro s hs
    have hfv : (videoCb s t).1.firstVideoFrame = true := by simp [videoCb, hs]
    have hfc : (videoCb s t).1.frameCount = s.frameCount + 1 := by
      simp [videoCb, hs]
    have hlt : (videoCb s t).1.lastFrameTime = t := by simp [videoCb, hs]
    have htot : (videoCb s t).1.totalEncodeTime =
        s.totalEncodeTime + (t - s.lastFrameTime) := by simp [videoCb, hs]
    have hmn : (videoCb s t).1.minEncodeTime =
        (if t - s.lastFrameTime < s.minEncodeTime then t - s.lastFrameTime
         else s.minEncodeTime) := by simp [videoCb, hs]
    have hmx : (videoCb s t).1.maxEncodeTime =
        (if s.maxEncodeTime < t - s.lastFrameTime then t - s.lastFrameTime
         else s.maxEncodeTime) := by simp [videoCb, hs]
    have hst : (videoCb s t).1.startTime = s.startTime := by simp [videoCb, hs]
    have hfa : (videoCb s t).1.firstAudioFrame = s.firstAudioFrame := by
      simp [videoCb, hs]
    have hac : (videoCb s t).1.audioFrameCount = s.audioFrameCount := by
      simp [videoCb, hs]
    obtain ⟨i1, i2, i3, i4, i5, i6, i7, i8, i9⟩ := ih (videoCb s t).1 hfv
    refine ⟨?_, ?_, ?_, ?_, ?_, ?_, ?_, ?_, ?_⟩
    · rw [runVideo_cons]; exact i1
    · rw [runVideo_cons, i2, hfc, List.length_cons]; omega
    · rw [runVideo_cons, i3, hlt, List.getLastD_cons]
    · rw [runVideo_cons, i4, htot, hlt, diffs_cons, List.sum_cons]; omega
    · rw [runVideo_cons, i5, hmn, hlt, diffs_cons, recMin_cons]
    · rw [runVideo_cons, i6, hmx, hlt, diffs_cons, recMax_cons]
    · rw [runVideo_cons, i7, hst]
    · rw [runVideo_cons, i8, hfa]
    · rw [runVideo_cons, i9, hac]

theorem runAudio_inv :
    ∀ (ts : List Nat) (s : GState), s.firstAudioFrame = true →
      (runAudio s ts).firstAudioFrame = true ∧
      (runAudio s ts).audioFrameCount = s.audioFrameCount + ts.length := by
  intro ts
  induction ts with
  | nil => intro s hs; simp [runAudio_nil, hs]
  | cons t ts ih =>
    intro s hs
    have hfa : (audioCb s t).1.firstAudioFrame = true := by simp [audioCb, hs]
    have hc : (audioCb s t).1.audioFrameCount = s.audioFrameCount + 1 := by
      simp [audioCb, hs]
    obtain ⟨i1, i2⟩ := ih (audioCb s t).1 hfa
    refine ⟨?_, ?_⟩
    · rw [runAudio_cons]; exact i1
    · rw [runAudio_cons, i2, hc, List.length_cons]; omega

/-- C3: for a video completion callback invoked at nondecreasing instants
t :: ts (N = 1 + ts.length ≥ 2 invocations): the first invocation records the
start timestamp and does no interval arithmetic (count, total, min, max keep
their initial values); afterwards the recorded interval count is N - 1, the
recorded total is the sum of the N - 1 inter-invocation intervals, and the
recorded minimum ≤ total / count ≤ the recorded maximum (integer division). -/
theorem c3_timing_stats :
    ∀ (t : Nat) (ts : List Nat), ts ≠ [] → List.Chain' (· ≤ ·) (t :: ts) →
      ((runVideo initState [t]).startTime = t ∧
        (runVideo initState [t]).frameCount = 0 ∧
        (runVideo initState [t]).totalEncodeTime = 0 ∧
        (runVideo initState [t]).minEncodeTime = hourNs ∧
        (runVideo initState [t]).maxEncodeTime = 0) ∧
      (runVideo initState (t :: ts)).frameCount = (t :: ts).length - 1 ∧
      (runVideo initState (t :: ts)).totalEncodeTime = (diffs t ts).sum ∧
      (runVideo initState (t :: ts)).minEncodeTime ≤
        (runVideo initState (t :: ts)).totalEncodeTime /
          (runVideo initState (t :: ts)).frameCount ∧
      (runVideo initState (t :: ts)).totalEncodeTime /
          (runVideo initState (t :: ts)).frameCount ≤
        (runVideo initState (t :: ts)).maxEncodeTime := by
  intro t ts hne _
  have hfv : (videoCb initState t).1.firstVideoFrame = true := rfl
  obtain ⟨_, i2, _, i4, i5, i6, _, _, _⟩ := runVideo_inv ts (videoCb initState t).1 hfv
  have hcons : runVideo initState (t :: ts) = runVideo (videoCb initState t).1 ts :=
    runVideo_cons initState t ts
  have hfc0 : (videoCb initState t).1.frameCount = 0 := rfl
  have hlt0 : (videoCb initState t).1.lastFrameTime = t := rfl
  have htot0 : (videoCb initState t).1.totalEncodeTime = 0 := rfl
  have hmn0 : (videoCb initState t).1.minEncodeTime = hourNs := rfl
  have hmx0 : (videoCb initState t).1.maxEncodeTime = 0 := rfl
  have hfc : (runVideo initState (t :: ts)).frameCount = ts.length := by
    rw [hcons, i2, hfc0]; omega
  have htot : (runVideo initState (t :: ts)).totalEncodeTime = (diffs t ts).sum := by
    rw [hcons, i4, htot0, hlt0]; omega
  have hmn : (runVideo initState (t :: ts)).minEncodeTime =
      recMin hourNs (diffs t ts) := by
    rw [hcons, i5, hmn0, hlt0]
  have hmx : (runVideo initState (t :: ts)).maxEncodeTime =
      recMax 0 (diffs t ts) := by
    rw [hcons, i6, hmx0, hlt0]
  have hlen : (diffs t ts).length = ts.length := diffs_length ts t
  have hpos : 0 < ts.length := List.length_pos.mpr hne
  refine ⟨⟨rfl, rfl, rfl, rfl, rfl⟩, by rw [hfc, List.length_cons]; omega, htot, ?_, ?_⟩
  · rw [hfc, htot, hmn]
    rw [Nat.le_div_iff_mul_le (by omega)]
    have hb := length_mul_le_sum (diffs t ts) (recMin hourNs (diffs t ts))
      fun x hx => recMin_le_mem _ _ x hx
    rw [hlen, Nat.mul_comm] at hb
    omega
  · rw [hfc, htot, hmx]
    have hsum := sum_le_length_mul (diffs t ts) (recMax 0 (diffs t ts))
      fun x hx => recMax_mem_le _ _ x hx
    rw [hlen] at hsum
    calc (diffs t ts).sum / ts.length
        ≤ ts.length * recMax 0 (diffs t ts) / ts.length :=
          Nat.div_le_div_right hsum
      _ = recMax 0 (diffs t ts) := Nat.mul_div_cancel_left _ hpos

theorem c3_timing_stats_witness :
    (runVideo initState [0, 40, 100]).frameCount = 2 ∧
    (runVideo initState [0, 40, 100]).totalEncodeTime = 100 := by
  have h := c3_timing_stats 0 [40, 100] (by decide)
    (by norm_num [List.chain'_cons])
  refine ⟨?_, ?_⟩
  · rw [h.2.1]; decide
  · rw [h.2.2.1]; decide

/-- C4: under the spec-modelled pacing contract (each successive hand-off at
least the nominal duration d after the previous one), delivering the frames
at instants t :: ts spans at least (F - 1) × d where F is the frame count;
the repository configures d = 40 ms for video and 20 ms for audio. -/
theorem c4_pacing :
    (∀ (d t : Nat) (ts : List Nat), Paced d (t :: ts) →
      t + ts.length * d ≤ (t :: ts).getLastD 0) ∧
    videoFrameDurationMs = 40 ∧ audioFrameDurationMs = 20 := by
  refine ⟨?_, rfl, rfl⟩
  intro d t ts
  induction ts generalizing t with
  | nil => intro _; simp
  | cons x ts ih =>
    intro hp
    unfold Paced at hp
    rw [List.chain'_cons] at hp
    have hx := ih x hp.2
    rw [List.getLastD_cons] at hx ⊢
    rw [List.getLastD_cons]
    rw [List.length_cons, Nat.succ_mul]
    have h1 := hp.1
    omega

theorem c4_pacing_witness :
    (0 : Nat) + 2 * 40 ≤ ([0, 40, 80] : List Nat).getLastD 0 := by
  have h := c4_pacing.1 40 0 [40, 80]
    (by unfold Paced; rw [List.chain'_cons, List.chain'_cons]; refine ⟨by omega, by omega, by simp⟩)
  exact h

theorem audioCb_video_fields (s : GState) (t : Nat) :
    (audioCb s t).1.frameCount = s.frameCount ∧
    (audioCb s t).1.lastFrameTime = s.lastFrameTime ∧
    (audioCb s t).1.totalEncodeTime = s.totalEncodeTime ∧
    (audioCb s t).1.maxEncodeTime = s.maxEncodeTime ∧
    (audioCb s t).1.minEncodeTime = s.minEncodeTime ∧
    (audioCb s t).1.startTime = s.startTime ∧
    (audioCb s t).1.firstVideoFrame = s.firstVideoFrame ∧
    (audioCb s t).1.videoBytesRead = s.videoBytesRead := by
  by_cases h : s.firstAudioFrame = false <;> simp [audioCb, h]

theorem videoCb_audio_fields (s : GState) (t : Nat) :
    (videoCb s t).1.firstAudioFrame = s.firstAudioFrame ∧
    (videoCb s t).1.audioFrameCount = s.audioFrameCount ∧
    (videoCb s t).1.audioBytesRead = s.audioBytesRead := by
  by_cases h : s.firstVideoFrame = false <;> simp [videoCb, h]

theorem runBoth_nil (s : GState) : runBoth s [] = s := rfl

theorem runBoth_cons (s : GState) (ev : Bool × Nat) (evs : List (Bool × Nat)) :
    runBoth s (ev :: evs) = runBoth (cbStep s ev) evs := rfl

theorem cbStep_video (s : GState) (t : Nat) :
    cbStep s (true, t) = (videoCb s t).1 := rfl

theorem cbStep_audio (s : GState) (t : Nat) :
    cbStep s (false, t) = (audioCb s t).1 := rfl

theorem countVideo_nil : countVideo [] = 0 := rfl

theorem countVideo_cons_video (t : Nat) (evs : List (Bool × Nat)) :
    countVideo ((true, t) :: evs) = countVideo evs + 1 := by
  simp [countVideo]

theorem countVideo_cons_audio (t : Nat) (evs : List (Bool × Nat)) :
    countVideo ((false, t) :: evs) = countVideo evs := by
  simp [countVideo]

theorem runBoth_video_flag :
    ∀ (evs : List (Bool × Nat)) (s : GState), s.firstVideoFrame = true →
      (runBoth s evs).firstVideoFrame = true ∧
      (runBoth s evs).frameCount = s.frameCount + countVideo evs := by
  intro evs
  induction evs with
  | nil => intro s hs; simp [runBoth_nil, countVideo_nil, hs]
  | cons ev evs ih =>
    intro s hs
    obtain ⟨b, t⟩ := ev
    cases b
    · have hv := audioCb_video_fields s t
      have hff : (audioCb s t).1.firstVideoFrame = true := by
        rw [hv.2.2.2.2.2.2.1]; exact hs
      obtain ⟨j1, j2⟩ := ih (audioCb s t).1 hff
      rw [runBoth_cons, cbStep_audio]
      exact ⟨j1, by rw [j2, hv.1, countVideo_cons_audio]⟩
    · have hfc : (videoCb s t).1.frameCount = s.frameCount + 1 := by
        simp [videoCb, hs]
      have hff : (videoCb s t).1.firstVideoFrame = true := by simp [videoCb, hs]
      obtain ⟨j1, j2⟩ := ih (videoCb s t).1 hff
      rw [runBoth_cons, cbStep_video]
      refine ⟨j1, ?_⟩
      rw [j2, hfc, countVideo_cons_video]
      omega

theorem runBoth_frameCount :
    ∀ (evs : List (Bool × Nat)) (s : GState),
      s.firstVideoFrame = false → s.frameCount = 0 →
      (runBoth s evs).frameCount = countVideo evs - 1 := by
  intro evs
  induction evs with
  | nil => intro s _ h2; simp [runBoth_nil, countVideo_nil, h2]
  | cons ev evs ih =>
    intro s h1 h2
    obtain ⟨b, t⟩ := ev
    cases b
    · have hv := audioCb_video_fields s t
      rw [runBoth_cons, cbStep_audio, countVideo_cons_audio]
      exact ih (audioCb s t).1 (by rw [hv.2.2.2.2.2.2.1]; exact h1)
        (by rw [hv.1]; exact h2)
    · rw [runBoth_cons, cbStep_video, countVideo_cons_video]
      have hff : (videoCb s t).1.firstVideoFrame = true := by simp [videoCb, h1]
      have hfc : (videoCb s t).1.frameCount = 0 := by simp [videoCb, h1, h2]
      obtain ⟨_, j2⟩ := runBoth_video_flag evs (videoCb s t).1 hff
      rw [j2, hfc]
      omega

theorem teardown_any_video (s : GState) :
    (teardown s).any isFinalVideo = decide (0 < s.frameCount) := by
  unfold teardown
  by_cases h : 0 < s.frameCount <;> simp [h, isFinalVideo]

theorem teardown_any_audio (s : GState) :
    (teardown s).any isFinalAudio = true := by
  unfold teardown
  by_cases h : 0 < s.frameCount <;> simp [h, isFinalAudio]

/-- C10: at teardown (shared verbatim by the live-pipe and file variants),
the final video statistics line is emitted iff at least one inter-frame
interval was recorded, i.e. iff the video callback ran at least twice in the
interleaving of callback invocations; the final audio frame-count line is
emitted unconditionally, even for zero audio frames. -/
theorem c10_final_stats :
    ∀ evs : List (Bool × Nat),
      ((teardown (runBoth initState evs)).any isFinalVideo = true ↔
        2 ≤ countVideo evs) ∧
      (teardown (runBoth initState evs)).any isFinalAudio = true := by
  intro evs
  have hfc := runBoth_frameCount evs initState rfl rfl
  refine ⟨?_, teardown_any_audio _⟩
  rw [teardown_any_video, hfc, decide_eq_true_eq]
  omega

/-- C5: whenever the lifecycle reaches the terminal state — through the
presence hysteresis in the live-pipe variant, or unconditionally after the
fixed 60-second sleep in the file variant — the teardown trace contains the
kill of both encoder subprocesses, the transport disconnect, and the final
statistics emission (the audio line always; the video line whenever an
interval was recorded). -/
theorem c5_teardown_actions :
    (∀ (snaps : List Bool) (s : GState) (evs : List Ev),
      liveMainRun snaps s = some evs →
        Ev.killVideoEncoder ∈ evs ∧ Ev.killAudioEncoder ∈ evs ∧
        Ev.disconnect ∈ evs ∧ Ev.finalAudioStats s.audioFrameCount ∈ evs ∧
        (0 < s.frameCount →
          Ev.finalVideoStats s.frameCount (s.totalEncodeTime / s.frameCount)
            s.minEncodeTime s.maxEncodeTime ∈ evs)) ∧
    (∀ s : GState,
      Ev.killVideoEncoder ∈ fileMainRun s ∧
      Ev.killAudioEncoder ∈ fileMainRun s ∧
      Ev.disconnect ∈ fileMainRun s ∧
      Ev.finalAudioStats s.audioFrameCount ∈ fileMainRun s) := by
  constructor
  · intro snaps s evs h
    have hevs : evs = teardown s := by
      unfold liveMainRun at h
      rcases Option.map_eq_some'.mp h with ⟨a, _, he⟩
      exact he.symm
    subst hevs
    unfold teardown
    by_cases hf : 0 < s.frameCount <;> simp [hf]
  · intro s
    unfold fileMainRun teardown
    by_cases hf : 0 < s.frameCount <;> simp [hf]

theorem c5_teardown_actions_witness :
    Ev.killVideoEncoder ∈ teardown initState ∧
    Ev.disconnect ∈ teardown initState :=
  ⟨(c5_teardown_actions.1 [true, true, true] initState (teardown initState) rfl).1,
   (c5_teardown_actions.1 [true, true, true] initState (teardown initState) rfl).2.2.1⟩

/-- The variables the video callback reads or writes. -/
def videoFields (s : GState) :
    Nat × Nat × Nat × Nat × Nat × Nat × Bool × Nat :=
  (s.frameCount, s.lastFrameTime, s.totalEncodeTime, s.maxEncodeTime,
   s.minEncodeTime, s.startTime, s.firstVideoFrame, s.videoBytesRead)

/-- The variables the audio callback writes (its own statistics). -/
def audioFields (s : GState) : Bool × Nat × Nat :=
  (s.firstAudioFrame, s.audioFrameCount, s.audioBytesRead)

/-- C8 counterexample to the claim as stated: two states that agree on every
audio-side variable but differ in the video-callback-written `startTime`
(here: the video callback previously ran at instant 0 versus instant 5) make
the audio callback produce different output at the same invocation instant,
because the audio callback prints `now.Sub(startTime)` ("delay from video
start"); hence the audio callback's output is not independent of the video
callback's state. -/
theorem c8_counterexample :
    audioFields (videoCb initState 0).1 = audioFields (videoCb initState 5).1 ∧
    (audioCb (videoCb initState 0).1 10).2 ≠ (audioCb (videoCb initState 5).1 10).2 := by
  decide

/-- C8 (amended): each kind's statistics variables are written only by that
kind's own callback — the video callback leaves every audio-side variable
unchanged and its state update and output depend only on the video-side
variables, and the audio callback leaves every video-side variable unchanged
and its own state update depends only on the audio-side variables; however
the audio callback's log output additionally reads the video-written
`startTime` (see the counterexample), so only its state, not its output, is
independent of the video callback's state. -/
theorem c8_stats_isolation :
    (∀ (s : GState) (t : Nat), audioFields (videoCb s t).1 = audioFields s) ∧
    (∀ (s : GState) (t : Nat), videoFields (audioCb s t).1 = videoFields s) ∧
    (∀ (s1 s2 : GState) (t : Nat), videoFields s1 = videoFields s2 →
      videoFields (videoCb s1 t).1 = videoFields (videoCb s2 t).1 ∧
      (videoCb s1 t).2 = (videoCb s2 t).2) ∧
    (∀ (s1 s2 : GState) (t : Nat), audioFields s1 = audioFields s2 →
      audioFields (audioCb s1 t).1 = audioFields (audioCb s2 t).1) := by
  refine ⟨?_, ?_, ?_, ?_⟩
  · intro s t
    by_cases h : s.firstVideoFrame = false <;> simp [videoCb, audioFields, h]
  · intro s t
    by_cases h : s.firstAudioFrame = false <;> simp [audioCb, videoFields, h]
  · intro s1 s2 t h
    simp only [videoFields, Prod.mk.injEq] at h
    obtain ⟨h1, h2, h3, h4, h5, h6, h7, h8⟩ := h
    rcases hb : s1.firstVideoFrame with _ | _
    · have hb2 : s2.firstVideoFrame = false := by rw [← h7, hb]
      constructor <;>
        simp [videoCb, videoFields, hb, hb2, h1, h2, h3, h4, h5, h6, h8]
    · have hb2 : s2.firstVideoFrame = true := by rw [← h7, hb]
      constructor <;>
        simp [videoCb, videoFields, hb, hb2, h1, h2, h3, h4, h5, h6, h8]
  · intro s1 s2 t h
    simp only [audioFields, Prod.mk.injEq] at h
    obtain ⟨h1, h2, h3⟩ := h
    rcases hb : s1.firstAudioFrame with _ | _
    · have hb2 : s2.firstAudioFrame = false := by rw [← h1, hb]
      simp [audioCb, audioFields, hb, hb2, h2, h3]
    · have hb2 : s2.firstAudioFrame = true := by rw [← h1, hb]
      simp [audioCb, audioFields, hb, hb2, h2, h3]

theorem c8_stats_isolation_witness :
    audioFields (videoCb initState 5).1 = audioFields initState ∧
    videoFields (videoCb initState 5).1 = videoFields (videoCb initState 5).1 :=
  ⟨c8_stats_isolation.1 initState 5,
   (c8_stats_isolation.2.2.1 initState initState 5 rfl).1⟩

/-! ## Helper lemmas: per-invocation diagnostics (C9) -/

theorem runVideoSteps_getD :
    ∀ (ts : List Nat) (s : GState) (n : Nat), n < ts.length →
      (runVideoSteps s ts).getD n [] =
        (videoCb (runVideo s (ts.take n)) (ts.getD n 0)).2 := by
  intro ts
  induction ts with
  | nil => intro s n h; simp at h
  | cons t ts ih =>
    intro s n hn
    cases n with
    | zero => rfl
    | succ m =>
      rw [show runVideoSteps s (t :: ts) =
          (videoCb s t).2 :: runVideoSteps (videoCb s t).1 ts from rfl,
        List.getD_cons_succ, List.take_succ_cons, List.getD_cons_succ,
        runVideo_cons]
      exact ih (videoCb s t).1 m (by simpa using hn)

theorem runAudioSteps_getD :
    ∀ (ts : List Nat) (s : GState) (n : Nat), n < ts.length →
      (runAudioSteps s ts).getD n [] =
        (audioCb (runAudio s (ts.take n)) (ts.getD n 0)).2 := by
  intro ts
  induction ts with
  | nil => intro s n h; simp at h
  | cons t ts ih =>
    intro s n hn
    cases n with
    | zero => rfl
    | succ m =>
      rw [show runAudioSteps s (t :: ts) =
          (audioCb s t).2 :: runAudioSteps (audioCb s t).1 ts from rfl,
        List.getD_cons_succ, List.take_succ_cons, List.getD_cons_succ,
        runAudio_cons]
      exact ih (audioCb s t).1 m (by simpa using hn)

theorem runVideo_take_init (ts : List Nat) (n : Nat) (h1 : 1 ≤ n)
    (hn : n ≤ ts.length) :
    (runVideo initState (ts.take n)).firstVideoFrame = true ∧
    (runVideo initState (ts.take n)).frameCount = n - 1 := by
  cases ts with
  | nil => simp at hn; omega
  | cons t ts =>
    cases n with
    | zero => omega
    | succ m =>
      rw [List.take_succ_cons, runVideo_cons]
      have hfv : (videoCb initState t).1.firstVideoFrame = true := rfl
      obtain ⟨i1, i2, _⟩ := runVideo_inv (ts.take m) (videoCb initState t).1 hfv
      refine ⟨i1, ?_⟩
      rw [i2, List.length_take]
      have hfc : (videoCb initState t).1.frameCount = 0 := rfl
      rw [hfc]
      simp only [List.length_cons] at hn
      omega

theorem runAudio_take_init (ts : List Nat) (n : Nat) (h1 : 1 ≤ n)
    (hn : n ≤ ts.length) :
    (runAudio initState (ts.take n)).firstAudioFrame = true ∧
    (runAudio initState (ts.take n)).audioFrameCount = n - 1 := by
  cases ts with
  | nil => simp at hn; omega
  | cons t ts =>
    cases n with
    | zero => omega
    | succ m =>
      rw [List.take_succ_cons, runAudio_cons]
      have hfa : (audioCb initState t).1.firstAudioFrame = true := rfl
      obtain ⟨i1, i2⟩ := runAudio_inv (ts.take m) (audioCb initState t).1 hfa
      refine ⟨i1, ?_⟩
      rw [i2, List.length_take]
      have hac : (audioCb initState t).1.audioFrameCount = 0 := rfl
      rw [hac]
      simp only [List.length_cons] at hn
      omega

/-- C9 (amended): the periodic diagnostic line is emitted exactly on the
invocations at which the interval counter — which does not count the first
hand-off — is a positive multiple of 100 (video) or 500 (audio); with 0-based
invocation index n (so invocation n + 1 counting from the first hand-off)
this is 1 ≤ n and n ≡ 0 mod 100 (video) / mod 500 (audio), i.e. the 101st,
201st, … video hand-offs and the 501st, 1001st, … audio hand-offs, never the
100th/500th delivered frame itself. -/
theorem c9_periodic_diagnostics :
    ∀ (ts : List Nat) (n : Nat), n < ts.length →
      (((runVideoSteps initState ts).getD n []).any isVideoPeriodic = true ↔
        (1 ≤ n ∧ n % 100 = 0)) ∧
      (((runAudioSteps initState ts).getD n []).any isAudioPeriodic = true ↔
        (1 ≤ n ∧ n % 500 = 0)) := by
  intro ts n hn
  constructor
  · rw [runVideoSteps_getD ts initState n hn]
    cases n with
    | zero =>
      simp [runVideo_nil, videoCb, initState, isVideoPeriodic]
    | succ m =>
      obtain ⟨hf, hc⟩ := runVideo_take_init ts (m + 1) (by omega) (by omega)
      by_cases h100 : (m + 1) % 100 = 0
      · simp [videoCb, hf, hc, h100, isVideoPeriodic]
      · simp [videoCb, hf, hc, h100, isVideoPeriodic]
  · rw [runAudioSteps_getD ts initState n hn]
    cases n with
    | zero =>
      simp [runAudio_nil, audioCb, initState, isAudioPeriodic]
    | succ m =>
      obtain ⟨hf, hc⟩ := runAudio_take_init ts (m + 1) (by omega) (by omega)
      by_cases h500 : (m + 1) % 500 = 0
      · simp [audioCb, hf, hc, h500, isAudioPeriodic]
      · simp [audioCb, hf, hc, h500, isAudioPeriodic]

theorem c9_periodic_diagnostics_witness :
    (((runVideoSteps initState [0, 1]).getD 1 []).any isVideoPeriodic = true ↔
      (1 ≤ 1 ∧ 1 % 100 = 0)) ∧
    (((runAudioSteps initState [0, 1]).getD 1 []).any isAudioPeriodic = true ↔
      (1 ≤ 1 ∧ 1 % 500 = 0)) :=
  c9_periodic_diagnostics [0, 1] 1 (by decide)

set_option maxRecDepth 100000 in
/-- C9 counterexample to the claim as stated: over 101 video hand-offs at
instants 0, 1, …, 100, the 100th delivered frame (0-based invocation index
99) emits no periodic diagnostic, while the 101st delivered frame (index 100,
not a multiple of 100 counting from the first hand-off) does emit one. -/
theorem c9_counterexample :
    ((runVideoSteps initState (List.range 101)).getD 99 []).any isVideoPeriodic
        = false ∧
    ((runVideoSteps initState (List.range 101)).getD 100 []).any isVideoPeriodic
        = true := by
  decide
